import Mathlib

/-!
Shallow embedding of the m3u8 downloader core (`src/download-m3u8.ts`) and
proofs about it.  Strings are Lean `String`s; the JavaScript string and array
primitives the source relies on (`startsWith`, `endsWith`, `includes`,
`trim`, `split`, `padStart`, `Number.toString`, the default `Array.sort`
comparator) are modelled by structurally recursive functions on the
underlying character lists so that everything evaluates inside the kernel.
Asynchronous effects are modelled by explicit oracles: a fetch is a function
from attempt number to an `Except` outcome, the nondeterministic settling
order of promises is an oracle consulted at each `Promise.race`, and the
filesystem is passed around as explicit data.
-/

namespace M3u8

/-! ## Models of the JavaScript string primitives used by the source -/

/-- Character-list core of JavaScript `String.prototype.startsWith`:
`charsStarts pat s` is `true` iff `pat` is an initial segment of `s`. -/
def charsStarts : List Char → List Char → Bool
  | [], _ => true
  | _ :: _, [] => false
  | p :: ps, c :: cs => p == c && charsStarts ps cs

/-- JavaScript `s.startsWith(pat)`. -/
def jsStartsWith (s pat : String) : Bool :=
  charsStarts pat.data s.data

/-- JavaScript `s.endsWith(pat)`: `pat` is a final segment of `s`. -/
def jsEndsWith (s pat : String) : Bool :=
  charsStarts pat.data.reverse s.data.reverse

/-- JavaScript `s.includes(pat)`: `pat` occurs contiguously somewhere in `s`. -/
def jsIncludes (s pat : String) : Bool :=
  s.data.tails.any (charsStarts pat.data)

/-- Strict lexicographic comparison of character lists by code point.  This is
the string ordering underlying JavaScript's default `Array.prototype.sort`
comparator (and Lean's own `List.lt` specialised to a linear element order). -/
def charsLt : List Char → List Char → Bool
  | _, [] => false
  | [], _ :: _ => true
  | a :: as, b :: bs => if a < b then true else if b < a then false else charsLt as bs

/-- Strict lexicographic string order (JavaScript string comparison). -/
def strLt (a b : String) : Prop :=
  charsLt a.data b.data = true

/-- Reflexive lexicographic string order, the order JavaScript's default
`Array.prototype.sort` sorts by. -/
def strLe (a b : String) : Prop :=
  charsLt b.data a.data = false

instance : DecidableRel strLt := fun a b =>
  inferInstanceAs (Decidable (charsLt a.data b.data = true))

instance : DecidableRel strLe := fun a b =>
  inferInstanceAs (Decidable (charsLt b.data a.data = false))

/-- JavaScript `s.trim()`: strip whitespace from both ends. -/
def jsTrim (s : String) : String :=
  String.mk (((s.data.dropWhile Char.isWhitespace).reverse.dropWhile Char.isWhitespace).reverse)

/-- Tail of the model of JavaScript `s.split(sep)` for a one-character
separator: `acc` holds the (reversed) characters of the current field. -/
def splitCharAux (sep : Char) : List Char → List Char → List String
  | [], acc => [String.mk acc.reverse]
  | c :: cs, acc =>
    if c = sep then String.mk acc.reverse :: splitCharAux sep cs []
    else splitCharAux sep cs (c :: acc)

/-- JavaScript `s.split(sep)` for a one-character separator; on the empty
string it produces `[""]`, exactly as in JavaScript. -/
def jsSplitChar (sep : Char) (s : String) : List String :=
  splitCharAux sep s.data []

/-- JavaScript `parts.join(sep)` for a one-character separator. -/
def joinSep (sep : Char) : List String → String
  | [] => ""
  | [s] => s
  | s :: s2 :: rest => s ++ String.mk [sep] ++ joinSep sep (s2 :: rest)

/-- Fuel-driven decimal digit extraction, most significant digit first.  The
fuel only serves to make the recursion structural; `decDigits` instantiates it
with a sufficient amount. -/
def decDigitsAux : Nat → Nat → List Nat
  | 0, n => [n]
  | fuel + 1, n => if n < 10 then [n] else decDigitsAux fuel (n / 10) ++ [n % 10]

/-- Decimal digits of `n`, most significant first (`decDigits 0 = [0]`). -/
def decDigits (n : Nat) : List Nat :=
  decDigitsAux n n

/-- Model of JavaScript `Number.prototype.toString()` on a non-negative
integer: its decimal digit string, without leading zeros. -/
def jsToString (n : Nat) : String :=
  String.mk ((decDigits n).map Nat.digitChar)

/-- JavaScript `s.padStart(n, c)`: left-pad `s` with `c` up to length `n`;
a string already at least `n` long is returned unchanged. -/
def jsPadStart (s : String) (n : Nat) (c : Char) : String :=
  if n ≤ s.data.length then s else String.mk (List.replicate (n - s.data.length) c ++ s.data)

/-! ## Manifest Resolver (`parseM3u8`, `isMasterPlaylist`, `chooseM3u8`) -/

/-- Base address of a manifest URL: all `/`-separated path segments except the
last, re-joined with `/`.  Embeds `m3u8Url.split('/').slice(0, -1).join('/')`. -/
def baseUrlOf (url : String) : String :=
  joinSep '/' (jsSplitChar '/' url).dropLast

/-- The filter applied to manifest lines by `parseM3u8`: keep a line iff it is
non-blank (after trimming) and does not start with the comment marker `#`.
Embeds `line && !line.startsWith('#')` (JavaScript string truthiness). -/
def keepLine (line : String) : Bool :=
  !line.data.isEmpty && !jsStartsWith line "#"

/-- Locator resolution shared by `parseM3u8` and `chooseM3u8`: a line starting
with the literal prefix `http` is used verbatim, any other line is rebased by
plain concatenation `baseUrl + '/' + line`. -/
def resolveLocator (baseUrl line : String) : String :=
  if jsStartsWith line "http" then line else baseUrl ++ "/" ++ line

/-- Body of `parseM3u8` after the manifest document `text` has been fetched
successfully from `m3u8Url`: split on newlines, trim every line, drop blank
and comment lines, and resolve each remaining line against the base address. -/
def parseM3u8 (m3u8Url text : String) : List String :=
  ((jsSplitChar '\n' text).map jsTrim).filter keepLine
    |>.map (fun line => if jsStartsWith line "http" then line else baseUrlOf m3u8Url ++ "/" ++ line)

/-- Body of `isMasterPlaylist` after the fetch: the document is classified as
a master (multi-variant) playlist iff it contains `#EXT-X-STREAM-INF`. -/
def isMasterPlaylist (text : String) : Bool :=
  jsIncludes text "#EXT-X-STREAM-INF"

/-- The stream-variant extraction loop of `chooseM3u8`, keeping only the
variant locator (`url` field of each `streamInfo`).  For a directive at
position `i` the source reads `lines[i + 1]`; when that element is missing
(`undefined`), the JavaScript template literal stringifies it to the literal
text `undefined`, so the pushed locator is `baseUrl + '/undefined'`. -/
def extractVariants (baseUrl : String) : List String → List String
  | [] => []
  | line :: rest =>
    if jsStartsWith line "#EXT-X-STREAM-INF" then
      (match rest.head? with
        | some nxt => if jsStartsWith nxt "http" then nxt else baseUrl ++ "/" ++ nxt
        | none => baseUrl ++ "/undefined") :: extractVariants baseUrl rest
    else extractVariants baseUrl rest

/-- Body of `chooseM3u8` after the fetch of the master document `text`.  The
interactive chooser is an oracle supplying the selected list index
`selected`; the source indexes `streamInfos[selected]` with an index coming
from the prompt's own choice list, so an out-of-range index (impossible with
the real prompt) is modelled by a distinct error. -/
def chooseM3u8 (masterUrl text : String) (selected : Nat) : Except String String :=
  let streamInfos := extractVariants (baseUrlOf masterUrl) ((jsSplitChar '\n' text).map jsTrim)
  if streamInfos.isEmpty then Except.error "No media streams found in master playlist"
  else
    match streamInfos[selected]? with
    | some u => Except.ok u
    | none => Except.error "invalid selection index"

/-! ## Retry Wrapper (`retry`) -/

/-- Loop of `retry`, counting down the remaining budget.  `attempt i` is the
outcome of the `i`-th invocation of the wrapped operation (0-based); the
result is paired with the number of invocations performed.  The fixed 500 ms
inter-attempt delay has no further observable effect and is not modelled. -/
def retryGo (attempt : Nat → Except ε α) (start : Nat) : Nat → Except ε α × Nat
  | 0 => (attempt start, 1)
  | budget + 1 =>
    match attempt start with
    | Except.ok v => (Except.ok v, 1)
    | Except.error _ =>
      ((retryGo attempt (start + 1) budget).1, (retryGo attempt (start + 1) budget).2 + 1)

/-- `retry(fn, retries)`: invoke `attempt` until its first success, at most
`retries + 1` times; the source's default budget is `retries = 3`. -/
def retry (attempt : Nat → Except ε α) (retries : Nat) : Except ε α × Nat :=
  retryGo attempt 0 retries

/-! ## Concurrency Scheduler (`runWithConcurrency`) -/

/-- Observable trace of one `runWithConcurrency` execution: the tasks in the
order they were started, the tasks in the order they settled, and the size of
the in-flight set at every observable instant. -/
structure SchedulerRun (τ : Type u) where
  started : List τ
  settled : List τ
  sizes : List Nat

/-- Split the in-flight list by a settling mask: the first component keeps the
entries whose mask bit is `false` (still pending), the second collects the
entries whose mask bit is `true` (settled).  Entries beyond the mask stay
pending. -/
def maskSplit : List τ → List Bool → List τ × List τ
  | [], _ => ([], [])
  | ts, [] => (ts, [])
  | t :: ts, b :: bs =>
    if b then ((maskSplit ts bs).1, t :: (maskSplit ts bs).2)
    else (t :: (maskSplit ts bs).1, (maskSplit ts bs).2)

/-- One `await Promise.race(running)` suspension: at least one in-flight
promise settles and is removed from the set by its `finally` handler.  The
mask (from the schedule oracle) says which promises settle during the
suspension; a mask selecting none is replaced by the first promise settling,
since `Promise.race` on a non-empty set of never-rejecting, eventually
settling promises always resumes after at least one settlement. -/
def raceStep (inflight : List τ) (mask : List Bool) : List τ × List τ :=
  if (maskSplit inflight mask).2.isEmpty then (inflight.drop 1, inflight.take 1)
  else maskSplit inflight mask

/-- The `for (const task of tasks)` loop of `runWithConcurrency`, followed by
the final `await Promise.all`.  `k` numbers the race suspensions (indexing
the schedule oracle), `inflight` is the current `running` set in insertion
order.  Each iteration starts the next task, records the in-flight size, and
when the size has reached `limit` awaits a race.  After the loop, the final
`Promise.all` settles every remaining in-flight task. -/
def runWCAux (limit : Nat) (oracle : Nat → List Bool) :
    List τ → Nat → List τ → SchedulerRun τ
  | [], _, inflight => ⟨[], inflight, [inflight.length]⟩
  | t :: ts, k, inflight =>
    let inflight2 := inflight ++ [t]
    if limit ≤ inflight2.length then
      let race := raceStep inflight2 (oracle k)
      let r := runWCAux limit oracle ts (k + 1) race.1
      ⟨t :: r.started, race.2 ++ r.settled, inflight2.length :: race.1.length :: r.sizes⟩
    else
      let r := runWCAux limit oracle ts (k + 1) inflight2
      ⟨t :: r.started, r.settled, inflight2.length :: r.sizes⟩

/-- `runWithConcurrency(tasks, limit)` under a settling-schedule oracle. -/
def runWithConcurrency (tasks : List τ) (limit : Nat) (oracle : Nat → List Bool) :
    SchedulerRun τ :=
  runWCAux limit oracle tasks 0 []

/-! ## Segment Fetcher and Assembler (`downloadTs`, `mergeTsFiles`) -/

/-- The workspace filename `downloadTs` persists segment `index` under:
`index.toString().padStart(5, '0') + '.ts'`. -/
def segFileName (index : Nat) : String :=
  jsPadStart (jsToString index) 5 '0' ++ ".ts"

/-- Body of `mergeTsFiles`.  The filesystem is explicit: `listing` is the
directory listing of the workspace (`fs.promises.readdir`), `read` maps a
listed filename to that file's bytes (the read stream, fully drained before
the next file is opened).  The JavaScript `Array.prototype.sort()` default
comparator is string-lexicographic; any stable comparison sort realises it,
modelled here by `List.insertionSort` over `strLe`.  The result is `none`
when no output file is created (`files.length === 0`), otherwise the bytes
written to the destination: the concatenation of the kept files' bytes in
sorted order, each file complete before the next begins. -/
def mergeTsFiles (listing : List String) (read : String → List Nat) : Option (List Nat) :=
  let files := List.insertionSort strLe (listing.filter (fun f => jsEndsWith f ".ts"))
  if files.length = 0 then none
  else some ((files.map read).flatten)

/-! ## Workspace Manager and the end-to-end run (`cleanup`, `downloadM3u8`) -/

/-- Outcome of the underlying `fs.rmSync` removal attempt, as supplied by the
filesystem oracle: success, failure because the path does not exist, or any
other failure (permissions, busy file, ...). -/
inductive FsError where
  | notFound
  | other (msg : String)
deriving DecidableEq

/-- `fs.rmSync(folder, { recursive: true, force: true })` as called by
`cleanup`: per the Node contract, `force: true` suppresses exactly the
error of a non-existent path; every other removal failure is thrown. -/
def rmSyncForce (rm : Except FsError Unit) : Option String :=
  match rm with
  | Except.ok _ => none
  | Except.error FsError.notFound => none
  | Except.error (FsError.other msg) => some msg

/-- The `console.error` line of the outer per-segment task:
`Download failed: ${url} - ${err.message}`. -/
def dlFailLog (url msg : String) : String :=
  "Download failed: " ++ url ++ " - " ++ msg

/-- Outcome of one segment's inner pipeline: `retry` around `downloadTs` with
the source's default budget of 3.  `fetchSeg i a` is the oracle outcome of
attempt `a` of segment `i`: the bytes on success, the thrown message
(`HTTP <status>` or a transport error) on failure. -/
def segResult (fetchSeg : Nat → Nat → Except String (List Nat)) (i : Nat) :
    Except String (List Nat) :=
  (retry (fetchSeg i) 3).1

/-- Workspace association list lookup: the bytes stored under a filename
(reading one downloaded segment file back during the merge). -/
def assocLookup : List (String × List Nat) → String → List Nat
  | [], _ => []
  | f :: fs, name => if f.1 = name then f.2 else assocLookup fs name

/-- Observable result of the segment-download-and-assemble phase of
`downloadM3u8` (after manifest resolution): the output artifact's bytes
(`none` when no output file was created), the error log lines, whether the
workspace directory was actually removed, and the error the call throws, if
any (`none` = returns normally). -/
structure RunResult where
  output : Option (List Nat)
  logs : List String
  removed : Bool
  thrown : Option String
deriving DecidableEq

/-- The tail of `downloadM3u8` from the task list onward: every outer task
catches its own residual failure after retries (so the scheduler phase never
throws and the workspace holds exactly the successful segments, each under
its zero-padded filename), then `mergeTsFiles` assembles the workspace, then
`cleanup` removes it with `fs.rmSync`, whose failure — not being wrapped in
any `try` — propagates out of `downloadM3u8`.  The scheduler's completion
order does not influence the workspace contents (each task writes its own
distinct file), so the run result is a function of the per-segment retry
outcomes and the removal oracle `rm` alone. -/
def downloadM3u8Run (urls : List String) (fetchSeg : Nat → Nat → Except String (List Nat))
    (rm : Except FsError Unit) : RunResult :=
  let results := (List.range urls.length).map (fun i => (i, segResult fetchSeg i))
  let files := results.filterMap (fun p =>
    match p.2 with
    | Except.ok bytes => some (segFileName p.1, bytes)
    | Except.error _ => none)
  let logs := results.filterMap (fun p =>
    match p.2 with
    | Except.ok _ => none
    | Except.error e => some (dlFailLog (urls.getD p.1 "") e))
  { output := mergeTsFiles (files.map (fun f => f.1)) (assocLookup files)
    logs := logs
    removed := match rm with | Except.ok _ => true | Except.error _ => false
    thrown := rmSyncForce rm }

/-! ## Spec-side vocabulary used only in theorem statements -/

/-- Pair every element of a list with its immediate successor (`none` for the
last element).  Used to state which line each stream-variant directive is
paired with. -/
def nextPaired : List String → List (String × Option String)
  | [] => []
  | l :: rest => (l, rest.head?) :: nextPaired rest

/-- Numeric value of a most-significant-first decimal digit list. -/
def digitsVal (ds : List Nat) : Nat :=
  ds.foldl (fun a d => 10 * a + d) 0

/-- Decimal digits of `n` left-padded with zeros to width 5 (digit values,
most significant first); matches `segFileName`'s padding for `n < 10^5`. -/
def padDigits5 (n : Nat) : List Nat :=
  List.replicate (5 - (decDigits n).length) 0 ++ decDigits n

/-- Bytes carried by a successful segment outcome (`[]` for a failure). -/
def bytesOf : Except String (List Nat) → List Nat
  | Except.ok b => b
  | Except.error _ => []

/-- Message carried by a failed segment outcome (`""` for a success). -/
def msgOf : Except String (List Nat) → String
  | Except.ok _ => ""
  | Except.error e => e

/-! ## Order theory of the lexicographic string comparison -/

theorem charsLt_nil_right (l : List Char) : charsLt l [] = false := by
  cases l <;> rfl

theorem charsLt_cons_cons (a b : Char) (as bs : List Char) :
    charsLt (a :: as) (b :: bs)
      = if a < b then true else if b < a then false else charsLt as bs := rfl

theorem charsLt_irrefl (l : List Char) : charsLt l l = false := by
  induction l with
  | nil => rfl
  | cons a as ih => simp [charsLt_cons_cons, lt_irrefl, ih]

theorem charsLt_asymm : ∀ {a b : List Char}, charsLt a b = true → charsLt b a = false
  | [], [], h => by simp [charsLt_nil_right]
  | [], _ :: _, _ => charsLt_nil_right _
  | _ :: _, [], h => by simp [charsLt_nil_right] at h
  | a :: as, b :: bs, h => by
    rw [charsLt_cons_cons] at h
    rw [charsLt_cons_cons]
    rcases lt_trichotomy a b with hab | hab | hab
    · simp [hab, lt_asymm hab]
    · subst hab
      simp [lt_irrefl] at h ⊢
      exact charsLt_asymm h
    · simp [hab, not_lt_of_gt hab] at h

theorem charsLt_eq_of_not_lt :
    ∀ {a b : List Char}, charsLt a b = false → charsLt b a = false → a = b
  | [], [], _, _ => rfl
  | [], _ :: _, h1, _ => by simp [charsLt] at h1
  | _ :: _, [], _, h2 => by simp [charsLt] at h2
  | a :: as, b :: bs, h1, h2 => by
    rw [charsLt_cons_cons] at h1 h2
    rcases lt_trichotomy a b with hab | hab | hab
    · simp [hab] at h1
    · subst hab
      simp [lt_irrefl] at h1 h2
      rw [charsLt_eq_of_not_lt h1 h2]
    · simp [hab] at h2

theorem charsLt_trans :
    ∀ {a b c : List Char}, charsLt a b = true → charsLt b c = true → charsLt a c = true
  | _, _, [], _, h2 => by rw [charsLt_nil_right] at h2; cases h2
  | _, [], _ :: _, h1, _ => by rw [charsLt_nil_right] at h1; cases h1
  | [], _ :: _, _ :: _, _, _ => rfl
  | a :: as, b :: bs, c :: cs, h1, h2 => by
    rw [charsLt_cons_cons] at h1 h2
    rw [charsLt_cons_cons]
    rcases lt_trichotomy a b with hab | hab | hab
    · rcases lt_trichotomy b c with hbc | hbc | hbc
      · simp [lt_trans hab hbc]
      · subst hbc; simp [hab]
      · simp [hbc, not_lt_of_gt hbc] at h2
    · subst hab; simp [lt_irrefl] at h1
      rcases lt_trichotomy a c with hac | hac | hac
      · simp [hac]
      · subst hac
        simp [lt_irrefl] at h2 ⊢
        exact charsLt_trans h1 h2
      · simp [hac, not_lt_of_gt hac] at h2
    · simp [hab, not_lt_of_gt hab] at h1

theorem strLt_asymm {a b : String} (h : strLt a b) : ¬ strLt b a := by
  unfold strLt at h ⊢
  simp [charsLt_asymm h]

theorem strLt_ne {a b : String} (h : strLt a b) : a ≠ b := by
  intro heq
  subst heq
  exact absurd h (by simp [strLt, charsLt_irrefl])

theorem strLt_le {a b : String} (h : strLt a b) : strLe a b :=
  charsLt_asymm h

instance : IsTrans String strLe := by
  constructor
  intro a b c h1 h2
  show charsLt c.data a.data = false
  cases hca : charsLt c.data a.data with
  | false => rfl
  | true =>
    cases hab : charsLt a.data b.data with
    | true =>
      have : charsLt c.data b.data = true := charsLt_trans hca hab
      rw [h2] at this; cases this
    | false =>
      have : a.data = b.data := charsLt_eq_of_not_lt hab h1
      rw [this] at hca
      rw [h2] at hca; cases hca

instance : IsTotal String strLe := by
  constructor
  intro a b
  cases h : charsLt b.data a.data with
  | false => exact Or.inl h
  | true => exact Or.inr (charsLt_asymm h)

theorem strData_inj : ∀ {a b : String}, a.data = b.data → a = b
  | ⟨_⟩, ⟨_⟩, rfl => rfl

/-! ## Resolver theorems -/

theorem base_slash_ne (base line : String) : base ++ "/" ++ line ≠ line := by
  intro heq
  have hd : (base ++ "/" ++ line).data = line.data := congrArg String.data heq
  have : (base.data ++ ['/']) ++ line.data = line.data := hd
  have hlen := congrArg List.length this
  simp [List.length_append] at hlen
  omega

/-- C10: in both `parseM3u8` and `chooseM3u8` a locator line is used verbatim
iff it begins with the literal four-character prefix `http`; any other line —
including one carrying a different absolute scheme such as `ftp://` — is
rebased by concatenating the base address, one `/`, and the line, while a
non-URL line that merely begins with `http` (such as `httpfoo.ts`) is taken
verbatim and never rebased. -/
theorem locator_verbatim_iff_http (base line : String) :
    (resolveLocator base line = line ↔ jsStartsWith line "http" = true) ∧
    (jsStartsWith line "http" = false → resolveLocator base line = base ++ "/" ++ line) ∧
    resolveLocator "http://h/a" "ftp://s/x.ts" = "http://h/a/ftp://s/x.ts" ∧
    resolveLocator "http://h/a" "httpfoo.ts" = "httpfoo.ts" ∧
    (∀ url text, parseM3u8 url text
       = (((jsSplitChar '\n' text).map jsTrim).filter keepLine).map
           (resolveLocator (baseUrlOf url))) ∧
    (∀ b d nxt rest, jsStartsWith d "#EXT-X-STREAM-INF" = true →
       extractVariants b (d :: nxt :: rest)
         = resolveLocator b nxt :: extractVariants b (nxt :: rest)) := by
  refine ⟨?_, ?_, by decide, by decide, fun url text => rfl, ?_⟩
  · unfold resolveLocator
    cases h : jsStartsWith line "http" with
    | true => simp
    | false => simp [base_slash_ne base line]
  · unfold resolveLocator
    cases h : jsStartsWith line "http" with
    | true => simp at h ⊢
    | false => simp
  · intro b d nxt rest hd
    simp [extractVariants, resolveLocator, hd]

/-- C5: for a non-multi-variant manifest document, `parseM3u8` produces
exactly one segment locator per non-blank (after trimming) non-comment line,
in the document's line order, each line resolved against the manifest's base
address (all path segments except the last, joined with `/`); in particular
the relative locator `seg.ts` under manifest `http://h/a/b/index.m3u8`
resolves to `http://h/a/b/seg.ts`. -/
theorem parseM3u8_segment_locators (url text : String) :
    (parseM3u8 url text).length
      = (((jsSplitChar '\n' text).map jsTrim).filter keepLine).length ∧
    (∀ k : Nat, (parseM3u8 url text)[k]?
      = (((jsSplitChar '\n' text).map jsTrim).filter keepLine)[k]?.map
          (resolveLocator (baseUrlOf url))) ∧
    parseM3u8 "http://h/a/b/index.m3u8" "seg.ts" = ["http://h/a/b/seg.ts"] := by
  refine ⟨?_, ?_, by decide⟩
  · show ((((jsSplitChar '\n' text).map jsTrim).filter keepLine).map
      (resolveLocator (baseUrlOf url))).length = _
    exact List.length_map _ _
  · intro k
    show ((((jsSplitChar '\n' text).map jsTrim).filter keepLine).map
      (resolveLocator (baseUrlOf url)))[k]? = _
    exact List.getElem?_map _ _ _

/-- C4 as stated is false on the code: a stream-variant directive is paired
with the immediately following line even when that line is blank (the blank
line is rebased to `base + "/"` instead of skipping to the next non-blank
line), and a directive with no following line at all still contributes a
variant, whose locator is `base + "/undefined"`. -/
theorem variant_pairing_counterexample :
    extractVariants "http://h/a" ["#EXT-X-STREAM-INF:BANDWIDTH=1", "", "v.m3u8"]
      = ["http://h/a/"] ∧
    "http://h/a/" ≠ "http://h/a/v.m3u8" ∧
    extractVariants "http://h/a" ["#EXT-X-STREAM-INF:BANDWIDTH=1"] ≠ [] :=
  ⟨by decide, by decide, by decide⟩

/-- C4 amended: the resolver pairs each stream-variant directive line with the
immediately following line, whatever it is (blank and comment lines are not
skipped); that line is taken verbatim when it starts with `http` and is
otherwise rebased as `base + "/" + line`; a directive with no following line
is not excluded but contributes a variant with locator `base + "/undefined"`.
Consequently there is exactly one variant per directive line. -/
theorem variant_pairing_immediate (base : String) (lines : List String) :
    extractVariants base lines
      = ((nextPaired lines).filter (fun p => jsStartsWith p.1 "#EXT-X-STREAM-INF")).map
          (fun p =>
            match p.2 with
            | some nxt => if jsStartsWith nxt "http" then nxt else base ++ "/" ++ nxt
            | none => base ++ "/undefined") ∧
    (extractVariants base lines).length
      = (lines.filter (fun l => jsStartsWith l "#EXT-X-STREAM-INF")).length := by
  induction lines with
  | nil => exact ⟨rfl, rfl⟩
  | cons l rest ih =>
    cases h : jsStartsWith l "#EXT-X-STREAM-INF" with
    | true =>
      refine ⟨?_, ?_⟩
      · simp [extractVariants, nextPaired, h, ih.1]
      · simp [extractVariants, h, ih.2]
    | false =>
      refine ⟨?_, ?_⟩
      · simp [extractVariants, nextPaired, h, ih.1]
      · simp [extractVariants, h, ih.2]

/-! ## Retry Wrapper theorems -/

theorem retryGo_count_le (attempt : Nat → Except ε α) :
    ∀ budget start, (retryGo attempt start budget).2 ≤ budget + 1 := by
  intro budget
  induction budget with
  | zero => intro start; exact Nat.le_refl _
  | succ b ih =>
    intro start
    unfold retryGo
    cases attempt start with
    | ok v => exact Nat.le_add_left _ _
    | error e => exact Nat.succ_le_succ (ih (start + 1))

theorem retryGo_first_ok (attempt : Nat → Except ε α) :
    ∀ k budget start, k ≤ budget →
      (∀ j, j < k → (attempt (start + j)).isOk = false) →
      (attempt (start + k)).isOk = true →
      retryGo attempt start budget = (attempt (start + k), k + 1) := by
  intro k
  induction k with
  | zero =>
    intro budget start _ _ hok
    rw [Nat.add_zero] at hok ⊢
    cases budget with
    | zero => rfl
    | succ b =>
      unfold retryGo
      cases ha : attempt start with
      | ok v => rfl
      | error e => rw [ha] at hok; cases hok
  | succ k ih =>
    intro budget start hk hfail hok
    cases budget with
    | zero => cases Nat.not_succ_le_zero k hk
    | succ b =>
      have h0 : (attempt (start + 0)).isOk = false := hfail 0 (Nat.succ_pos k)
      rw [Nat.add_zero] at h0
      unfold retryGo
      cases ha : attempt start with
      | ok v => rw [ha] at h0; cases h0
      | error e =>
        have hidx : start + 1 + k = start + (k + 1) := by omega
        have hrec := ih b (start + 1) (Nat.le_of_succ_le_succ hk)
          (fun j hj => by
            have h2 := hfail (j + 1) (Nat.succ_lt_succ hj)
            have h3 : start + 1 + j = start + (j + 1) := by omega
            rwa [h3])
          (by rwa [hidx])
        rw [hrec, hidx]

theorem retryGo_all_fail (attempt : Nat → Except ε α) :
    ∀ budget start, (∀ i, i ≤ budget → (attempt (start + i)).isOk = false) →
      retryGo attempt start budget = (attempt (start + budget), budget + 1) := by
  intro budget
  induction budget with
  | zero => intro start _; rfl
  | succ b ih =>
    intro start hfail
    have h0 : (attempt (start + 0)).isOk = false := hfail 0 (Nat.zero_le _)
    rw [Nat.add_zero] at h0
    unfold retryGo
    cases ha : attempt start with
    | ok v => rw [ha] at h0; cases h0
    | error e =>
      have hidx : start + 1 + b = start + (b + 1) := by omega
      have hrec := ih (start + 1) (fun i hi => by
        have h2 := hfail (i + 1) (Nat.succ_le_succ hi)
        have h3 : start + 1 + i = start + (i + 1) := by omega
        rwa [h3])
      rw [hrec, hidx]

/-- C2: `retry` invokes the operation until its first success and returns that
success outcome, invoking it at most `r + 1` times; when the first `k`
invocations fail and invocation `k` (0-based) succeeds within the budget, the
operation is invoked exactly `k + 1` times; when all `r + 1` invocations
fail, exactly `r + 1` invocations occur and the failure of the last
invocation is propagated unchanged.  In particular, with `retries = 3` an
operation failing twice then succeeding is invoked exactly 3 times and its
success value is returned, and an always-failing operation is invoked exactly
4 times with the fourth failure propagated. -/
theorem retry_invocation_spec (attempt : Nat → Except ε α) (r : Nat) :
    (retry attempt r).2 ≤ r + 1 ∧
    (∀ k, k ≤ r → (∀ j, j < k → (attempt j).isOk = false) → (attempt k).isOk = true →
      retry attempt r = (attempt k, k + 1)) ∧
    ((∀ i, i ≤ r → (attempt i).isOk = false) → retry attempt r = (attempt r, r + 1)) ∧
    retry (fun i => if i < 2 then (Except.error 9 : Except Nat Nat) else Except.ok 7) 3
      = (Except.ok 7, 3) ∧
    retry (fun i => (Except.error i : Except Nat Nat)) 3 = (Except.error 3, 4) := by
  refine ⟨retryGo_count_le attempt r 0, ?_, ?_, rfl, rfl⟩
  · intro k hk hfail hok
    have := retryGo_first_ok attempt k r 0 hk
      (fun j hj => by rw [Nat.zero_add]; exact hfail j hj)
      (by rwa [Nat.zero_add])
    rwa [Nat.zero_add] at this
  · intro hfail
    have := retryGo_all_fail attempt r 0 (fun i hi => by
      rw [Nat.zero_add]; exact hfail i hi)
    rwa [Nat.zero_add] at this

/-! ## Assembler theorems -/

theorem mergeTsFiles_eq (listing : List String) (read : String → List Nat) :
    mergeTsFiles listing read
      = (if (List.insertionSort strLe (listing.filter (fun f => jsEndsWith f ".ts"))).length = 0
         then none
         else some (((List.insertionSort strLe
             (listing.filter (fun f => jsEndsWith f ".ts"))).map read).flatten)) := rfl

/-- C3: `mergeTsFiles` keeps exactly the listed files with the `.ts`
extension; when none remain it creates no output (`none`); otherwise the
bytes written to the destination are the concatenation, file by file with no
interleaving, of the kept files' bytes in lexicographically sorted name
order.  In particular with workspace files `00000.ts` and `00002.ts`
(`00001.ts` missing) the output is exactly `00000.ts`'s bytes followed by
`00002.ts`'s bytes. -/
theorem mergeTsFiles_concatenation (listing : List String) (read : String → List Nat) :
    (mergeTsFiles listing read = none ↔ ∀ f ∈ listing, jsEndsWith f ".ts" = false) ∧
    (∀ out, mergeTsFiles listing read = some out →
      ∃ files : List String,
        files.Perm (listing.filter (fun f => jsEndsWith f ".ts")) ∧
        List.Sorted strLe files ∧
        out = (files.map read).flatten) ∧
    (∀ a b : List Nat,
      mergeTsFiles ["00000.ts", "00002.ts"]
          (fun f => if f = "00000.ts" then a else if f = "00002.ts" then b else [])
        = some (a ++ b)) := by
  have hperm := List.perm_insertionSort strLe (listing.filter (fun f => jsEndsWith f ".ts"))
  have hlen0 : (List.insertionSort strLe
      (listing.filter (fun f => jsEndsWith f ".ts"))).length = 0
      ↔ listing.filter (fun f => jsEndsWith f ".ts") = [] := by
    rw [hperm.length_eq]
    exact List.length_eq_zero
  refine ⟨?_, ?_, ?_⟩
  · rw [mergeTsFiles_eq]
    by_cases hnil : listing.filter (fun f => jsEndsWith f ".ts") = []
    · rw [if_pos (hlen0.mpr hnil)]
      constructor
      · intro _ f hf
        simpa using (List.filter_eq_nil_iff.mp hnil) f hf
      · intro _; rfl
    · rw [if_neg (fun hc => hnil (hlen0.mp hc))]
      constructor
      · intro h; cases h
      · intro hall
        exact absurd (List.filter_eq_nil_iff.mpr (fun a ha => by simp [hall a ha])) hnil
  · intro out h
    rw [mergeTsFiles_eq] at h
    by_cases hc : (List.insertionSort strLe
        (listing.filter (fun f => jsEndsWith f ".ts"))).length = 0
    · rw [if_pos hc] at h; cases h
    · rw [if_neg hc] at h
      refine ⟨List.insertionSort strLe (listing.filter (fun f => jsEndsWith f ".ts")),
        hperm, List.sorted_insertionSort strLe _, ?_⟩
      exact (Option.some.injEq _ _ ▸ h).symm
  · intro a b
    have hfiles : List.insertionSort strLe
        (["00000.ts", "00002.ts"].filter (fun f => jsEndsWith f ".ts"))
        = ["00000.ts", "00002.ts"] := by decide
    rw [mergeTsFiles_eq, hfiles]
    simp

/-! ## Decimal digit facts for the zero-padded filenames -/

theorem decDigitsAux_fuel_free :
    ∀ f g n, n ≤ f → n ≤ g → decDigitsAux f n = decDigitsAux g n := by
  intro f
  induction f with
  | zero =>
    intro g n hf _
    interval_cases n
    cases g with
    | zero => rfl
    | succ g => simp [decDigitsAux]
  | succ f ih =>
    intro g n hf hg
    by_cases h10 : n < 10
    · cases g with
      | zero =>
        interval_cases n
        simp [decDigitsAux]
      | succ g => simp [decDigitsAux, h10]
    · have hn0 : 10 ≤ n := Nat.le_of_not_lt h10
      cases g with
      | zero => omega
      | succ g =>
        have hdiv : n / 10 < n := Nat.div_lt_self (by omega) (by omega)
        simp only [decDigitsAux, if_neg h10]
        rw [ih g (n / 10) (by omega) (by omega)]

theorem decDigits_lt10 {n : Nat} (h : n < 10) : decDigits n = [n] := by
  unfold decDigits
  cases n with
  | zero => rfl
  | succ m => simp [decDigitsAux, h]

theorem decDigits_ge10 {n : Nat} (h : 10 ≤ n) :
    decDigits n = decDigits (n / 10) ++ [n % 10] := by
  unfold decDigits
  cases n with
  | zero => omega
  | succ m =>
    have hdiv : (m + 1) / 10 < m + 1 := Nat.div_lt_self (by omega) (by omega)
    simp only [decDigitsAux, if_neg (Nat.not_lt.mpr h)]
    rw [decDigitsAux_fuel_free m ((m + 1) / 10) ((m + 1) / 10) (by omega) (Nat.le_refl _)]

theorem decDigits_digits_lt (n : Nat) : ∀ d ∈ decDigits n, d < 10 := by
  induction n using Nat.strong_induction_on with
  | _ n ih =>
    by_cases h10 : n < 10
    · rw [decDigits_lt10 h10]
      intro d hd
      rw [List.mem_singleton] at hd
      omega
    · rw [decDigits_ge10 (Nat.le_of_not_lt h10)]
      intro d hd
      rcases List.mem_append.mp hd with hmem | hmem
      · exact ih (n / 10) (Nat.div_lt_self (by omega) (by omega)) d hmem
      · rw [List.mem_singleton] at hmem
        subst hmem
        exact Nat.mod_lt n (by omega)

theorem foldl_digits_acc (ds : List Nat) (a : Nat) :
    ds.foldl (fun x d => 10 * x + d) a = a * 10 ^ ds.length + digitsVal ds := by
  induction ds generalizing a with
  | nil => simp [digitsVal]
  | cons d ds ih =>
    show (ds.foldl _ (10 * a + d)) = _
    rw [ih (10 * a + d)]
    have hd : digitsVal (d :: ds) = d * 10 ^ ds.length + digitsVal ds := by
      show (ds.foldl _ (10 * 0 + d)) = _
      rw [show 10 * 0 + d = d by omega, ih d]
    rw [hd]
    simp [List.length_cons, pow_succ]
    ring

theorem digitsVal_cons (d : Nat) (ds : List Nat) :
    digitsVal (d :: ds) = d * 10 ^ ds.length + digitsVal ds := by
  show (ds.foldl _ (10 * 0 + d)) = _
  rw [show 10 * 0 + d = d by omega, foldl_digits_acc ds d]

theorem digitsVal_decDigits (n : Nat) : digitsVal (decDigits n) = n := by
  induction n using Nat.strong_induction_on with
  | _ n ih =>
    by_cases h10 : n < 10
    · rw [decDigits_lt10 h10]
      show (10 * 0 + n) = n
      omega
    · rw [decDigits_ge10 (Nat.le_of_not_lt h10)]
      unfold digitsVal
      rw [List.foldl_append]
      show 10 * (digitsVal (decDigits (n / 10))) + n % 10 = n
      rw [ih (n / 10) (Nat.div_lt_self (by omega) (by omega))]
      omega

theorem digitsVal_lt (ds : List Nat) (h : ∀ d ∈ ds, d < 10) :
    digitsVal ds < 10 ^ ds.length := by
  induction ds with
  | nil => simp [digitsVal]
  | cons d ds ih =>
    rw [digitsVal_cons]
    have hd : d < 10 := h d (List.mem_cons_self d ds)
    have hv : digitsVal ds < 10 ^ ds.length := ih (fun x hx => h x (List.mem_cons_of_mem d hx))
    have h1 : d * 10 ^ ds.length + digitsVal ds < (d + 1) * 10 ^ ds.length := by
      rw [Nat.add_mul, Nat.one_mul]
      omega
    have h2 : (d + 1) * 10 ^ ds.length ≤ 10 * 10 ^ ds.length :=
      Nat.mul_le_mul_right _ (by omega)
    calc d * 10 ^ ds.length + digitsVal ds
        < (d + 1) * 10 ^ ds.length := h1
      _ ≤ 10 * 10 ^ ds.length := h2
      _ = 10 ^ (ds.length + 1) := by rw [pow_succ]; ring
      _ = 10 ^ (d :: ds).length := by rw [List.length_cons]

theorem decDigits_length_le :
    ∀ k, 1 ≤ k → ∀ n, n < 10 ^ k → (decDigits n).length ≤ k := by
  intro k hk
  induction k with
  | zero => omega
  | succ k ih =>
    intro n hn
    by_cases h10 : n < 10
    · rw [decDigits_lt10 h10]
      simp
    · have hge : 10 ≤ n := Nat.le_of_not_lt h10
      have hk1 : 1 ≤ k := by
        by_contra hc
        have : k = 0 := by omega
        subst this
        simp [pow_succ, pow_zero] at hn
        omega
      rw [decDigits_ge10 hge]
      rw [List.length_append, List.length_singleton]
      have hdivlt : n / 10 < 10 ^ k := by
        rw [Nat.div_lt_iff_lt_mul (by omega : 0 < 10)]
        calc n < 10 ^ (k + 1) := hn
          _ = 10 ^ k * 10 := by rw [pow_succ]
      have := ih hk1 (n / 10) hdivlt
      omega

theorem digitsVal_replicate_zero (k : Nat) (ds : List Nat) :
    digitsVal (List.replicate k 0 ++ ds) = digitsVal ds := by
  unfold digitsVal
  rw [List.foldl_append]
  have h0 : (List.replicate k 0).foldl (fun x d => 10 * x + d) 0 = 0 := by
    induction k with
    | zero => rfl
    | succ k ihk => simpa [List.replicate_succ] using ihk
  rw [h0]

theorem padDigits5_val (n : Nat) : digitsVal (padDigits5 n) = n := by
  unfold padDigits5
  rw [digitsVal_replicate_zero, digitsVal_decDigits]

theorem padDigits5_digits_lt (n : Nat) : ∀ d ∈ padDigits5 n, d < 10 := by
  intro d hd
  rcases List.mem_append.mp hd with hmem | hmem
  · rw [List.eq_of_mem_replicate hmem]
    omega
  · exact decDigits_digits_lt n d hmem

theorem padDigits5_length {n : Nat} (h : n < 100000) : (padDigits5 n).length = 5 := by
  unfold padDigits5
  rw [List.length_append, List.length_replicate]
  have hle : (decDigits n).length ≤ 5 :=
    decDigits_length_le 5 (by omega) n (by norm_num; omega)
  omega

theorem strData_append (a b : String) : (a ++ b).data = a.data ++ b.data := rfl

theorem segFileName_data (n : Nat) :
    (segFileName n).data = (padDigits5 n).map Nat.digitChar ++ ".ts".data := by
  have hmap : (padDigits5 n).map Nat.digitChar
      = List.replicate (5 - (decDigits n).length) '0' ++ (decDigits n).map Nat.digitChar := by
    unfold padDigits5
    rw [List.map_append, List.map_replicate]
    rfl
  have hlen : (jsToString n).data.length = (decDigits n).length := by
    show ((decDigits n).map Nat.digitChar).length = _
    exact List.length_map _ _
  unfold segFileName
  rw [strData_append, hmap]
  unfold jsPadStart
  by_cases hp : 5 ≤ (jsToString n).data.length
  · rw [if_pos hp]
    have h0 : 5 - (decDigits n).length = 0 := by
      rw [hlen] at hp
      omega
    rw [h0, List.replicate_zero, List.nil_append]
    rfl
  · rw [if_neg hp]
    show (List.replicate (5 - (jsToString n).data.length) '0' ++ (jsToString n).data) ++ _ = _
    rw [hlen]
    rfl

theorem digitChar_lt_iff :
    ∀ d, d < 10 → ∀ e, e < 10 → ((Nat.digitChar d < Nat.digitChar e) ↔ d < e) := by
  decide

theorem charsLt_digits :
    ∀ (ds es : List Nat), ds.length = es.length →
      (∀ d ∈ ds, d < 10) → (∀ d ∈ es, d < 10) →
      digitsVal ds < digitsVal es →
      charsLt (ds.map Nat.digitChar) (es.map Nat.digitChar) = true
  | [], [], _, _, _, hval => absurd hval (lt_irrefl 0)
  | [], _ :: _, hlen, _, _, _ => by simp at hlen
  | _ :: _, [], hlen, _, _, _ => by simp at hlen
  | d :: ds, e :: es, hlen, hds, hes, hval => by
    have hlen' : ds.length = es.length := by simpa using hlen
    have hd : d < 10 := hds d (List.mem_cons_self d ds)
    have he : e < 10 := hes e (List.mem_cons_self e es)
    rw [List.map_cons, List.map_cons, charsLt_cons_cons]
    rcases lt_trichotomy d e with hde | hde | hde
    · rw [if_pos ((digitChar_lt_iff d hd e he).mpr hde)]
    · subst hde
      rw [if_neg (by simp [digitChar_lt_iff d hd d hd]),
        if_neg (by simp [digitChar_lt_iff d hd d hd])]
      apply charsLt_digits ds es hlen'
        (fun x hx => hds x (List.mem_cons_of_mem d hx))
        (fun x hx => hes x (List.mem_cons_of_mem d hx))
      rw [digitsVal_cons, digitsVal_cons, hlen'] at hval
      exact lt_of_add_lt_add_left hval
    · exfalso
      rw [digitsVal_cons, digitsVal_cons, hlen'] at hval
      have hv2 : digitsVal es < 10 ^ es.length :=
        digitsVal_lt es (fun x hx => hes x (List.mem_cons_of_mem e hx))
      have hmul : (e + 1) * 10 ^ es.length ≤ d * 10 ^ es.length :=
        Nat.mul_le_mul_right _ (by omega)
      rw [Nat.add_mul, Nat.one_mul] at hmul
      have hge : digitsVal ds ≥ 0 := Nat.zero_le _
      linarith

theorem charsLt_append_same (s : List Char) :
    ∀ a, ∀ b : List Char, a.length = b.length → charsLt a b = true →
      charsLt (a ++ s) (b ++ s) = true := by
  intro a
  induction a with
  | nil =>
    intro b hlen hlt
    have hb : b = [] := List.length_eq_zero.mp hlen.symm
    subst hb
    rw [charsLt_nil_right] at hlt
    cases hlt
  | cons x as ih =>
    intro b hlen hlt
    cases b with
    | nil => simp at hlen
    | cons y bs =>
      rw [charsLt_cons_cons] at hlt
      rw [List.cons_append, List.cons_append, charsLt_cons_cons]
      by_cases h1 : x < y
      · rw [if_pos h1]
      · rw [if_neg h1] at hlt ⊢
        by_cases h2 : y < x
        · rw [if_pos h2] at hlt; cases hlt
        · rw [if_neg h2] at hlt ⊢
          exact ih bs (by simpa using hlen) hlt

theorem segFileName_strLt {i j : Nat} (hij : i < j) (hj : j < 100000) :
    strLt (segFileName i) (segFileName j) := by
  show charsLt (segFileName i).data (segFileName j).data = true
  rw [segFileName_data i, segFileName_data j]
  apply charsLt_append_same
  · rw [List.length_map, List.length_map,
      padDigits5_length (lt_trans hij hj), padDigits5_length hj]
  · apply charsLt_digits _ _
      (by rw [padDigits5_length (lt_trans hij hj), padDigits5_length hj])
      (padDigits5_digits_lt i) (padDigits5_digits_lt j)
    rw [padDigits5_val, padDigits5_val]
    exact hij

/-- C6 is false as stated for unbounded indices: `padStart(5, '0')` does not
truncate, so index 100000 produces the 9-character name `100000.ts`, which
sorts lexicographically strictly before `99999.ts` although 99999 < 100000. -/
theorem segFileName_order_counterexample :
    99999 < 100000 ∧ ¬ strLt (segFileName 99999) (segFileName 100000) ∧
    strLt (segFileName 100000) (segFileName 99999) :=
  ⟨by decide, by decide, by decide⟩

/-- C6 amended: for every pair of segment indices `i < j` with `j` below the
padding bound `10^5`, the persisted filename built from `i` (the index
zero-padded to width 5 followed by `.ts`) sorts strictly before the filename
built from `j` in lexicographic string order; hence for every run of at most
100000 segments the Assembler's lexicographic sort of workspace filenames
equals index order. -/
theorem segFileName_lex_index_order (i j n : Nat) (hij : i < j) (hj : j < 100000)
    (hn : n ≤ 100000) :
    strLt (segFileName i) (segFileName j) ∧
    List.Sorted strLe ((List.range n).map segFileName) := by
  refine ⟨segFileName_strLt hij hj, ?_⟩
  have hp : List.Pairwise (fun a b : Nat => strLt (segFileName a) (segFileName b))
      (List.range n) := by
    apply List.Pairwise.imp_of_mem ?_ (List.pairwise_lt_range n)
    intro a b _ hb hab
    exact segFileName_strLt hab (lt_of_lt_of_le (List.mem_range.mp hb) hn)
  exact List.pairwise_map.mpr (hp.imp (fun h => strLt_le h))

theorem segFileName_lex_index_order_witness :
    (0 < 1 ∧ 1 < 100000 ∧ 20 ≤ 100000) ∧
    (strLt (segFileName 0) (segFileName 1) ∧
     List.Sorted strLe ((List.range 20).map segFileName)) :=
  ⟨⟨by decide, by decide, by decide⟩,
    segFileName_lex_index_order 0 1 20 (by decide) (by decide) (by decide)⟩

/-! ## Concurrency Scheduler theorems -/

theorem maskSplit_perm :
    ∀ (ts : List τ) (ms : List Bool), ((maskSplit ts ms).1 ++ (maskSplit ts ms).2).Perm ts := by
  intro ts
  induction ts with
  | nil => intro ms; cases ms <;> exact List.Perm.refl _
  | cons t ts ih =>
    intro ms
    cases ms with
    | nil => simp [maskSplit]
    | cons b bs =>
      cases b with
      | true =>
        simp only [maskSplit, if_pos rfl]
        exact (List.perm_middle).trans ((ih bs).cons t)
      | false =>
        simp only [maskSplit, if_neg Bool.false_ne_true]
        exact (ih bs).cons t

theorem raceStep_perm (inflight : List τ) (ms : List Bool) :
    ((raceStep inflight ms).1 ++ (raceStep inflight ms).2).Perm inflight := by
  unfold raceStep
  by_cases h : (maskSplit inflight ms).2.isEmpty
  · rw [if_pos h]
    show (inflight.drop 1 ++ inflight.take 1).Perm inflight
    calc (inflight.drop 1 ++ inflight.take 1).Perm (inflight.take 1 ++ inflight.drop 1) :=
          List.perm_append_comm
      _ = inflight := List.take_append_drop 1 inflight
  · rw [if_neg h]
    exact maskSplit_perm inflight ms

theorem raceStep_settles (inflight : List τ) (ms : List Bool) (h : inflight ≠ []) :
    1 ≤ (raceStep inflight ms).2.length := by
  unfold raceStep
  by_cases hE : (maskSplit inflight ms).2.isEmpty
  · rw [if_pos hE]
    show 1 ≤ (inflight.take 1).length
    rw [List.length_take]
    have : 1 ≤ inflight.length := List.length_pos.mpr h
    omega
  · rw [if_neg hE]
    have : (maskSplit inflight ms).2 ≠ [] := by
      intro hnil
      rw [hnil] at hE
      exact hE rfl
    have := List.length_pos.mpr this
    omega

theorem raceStep_length (inflight : List τ) (ms : List Bool) :
    (raceStep inflight ms).1.length + (raceStep inflight ms).2.length = inflight.length := by
  have := (raceStep_perm inflight ms).length_eq
  rwa [List.length_append] at this

theorem runWCAux_spec (limit : Nat) (oracle : Nat → List Bool) :
    ∀ (ts : List τ) (k : Nat) (inflight : List τ), inflight.length < limit →
      (runWCAux limit oracle ts k inflight).started = ts ∧
      (runWCAux limit oracle ts k inflight).settled.Perm (inflight ++ ts) ∧
      ∀ s ∈ (runWCAux limit oracle ts k inflight).sizes, s ≤ limit := by
  intro ts
  induction ts with
  | nil =>
    intro k inflight hlen
    refine ⟨rfl, ?_, ?_⟩
    · show List.Perm inflight (inflight ++ [])
      rw [List.append_nil]
    · intro s hs
      have hs2 : s ∈ [inflight.length] := hs
      rw [List.mem_singleton] at hs2
      omega
  | cons t ts ih =>
    intro k inflight hlen
    have hlen2 : (inflight ++ [t]).length = inflight.length + 1 := by
      rw [List.length_append, List.length_singleton]
    by_cases hc : limit ≤ (inflight ++ [t]).length
    · have hne : inflight ++ [t] ≠ [] := by
        intro hnil
        have hn2 := congrArg List.length hnil
        rw [hlen2] at hn2
        simp at hn2
      have hsettle := raceStep_settles (inflight ++ [t]) (oracle k) hne
      have hlength := raceStep_length (inflight ++ [t]) (oracle k)
      have hkeep : (raceStep (inflight ++ [t]) (oracle k)).1.length < limit := by omega
      obtain ⟨h1, h2, h3⟩ := ih (k + 1) (raceStep (inflight ++ [t]) (oracle k)).1 hkeep
      have hxrun : runWCAux limit oracle (t :: ts) k inflight =
          ⟨t :: (runWCAux limit oracle ts (k + 1)
              (raceStep (inflight ++ [t]) (oracle k)).1).started,
           (raceStep (inflight ++ [t]) (oracle k)).2 ++
             (runWCAux limit oracle ts (k + 1)
               (raceStep (inflight ++ [t]) (oracle k)).1).settled,
           (inflight ++ [t]).length ::
             (raceStep (inflight ++ [t]) (oracle k)).1.length ::
             (runWCAux limit oracle ts (k + 1)
               (raceStep (inflight ++ [t]) (oracle k)).1).sizes⟩ := by
        simp only [runWCAux]
        rw [if_pos hc]
      rw [hxrun]
      refine ⟨?_, ?_, ?_⟩
      · show t :: (runWCAux limit oracle ts (k + 1)
            (raceStep (inflight ++ [t]) (oracle k)).1).started = t :: ts
        rw [h1]
      · show ((raceStep (inflight ++ [t]) (oracle k)).2 ++
            (runWCAux limit oracle ts (k + 1)
              (raceStep (inflight ++ [t]) (oracle k)).1).settled).Perm
            (inflight ++ (t :: ts))
        have hperm := raceStep_perm (inflight ++ [t]) (oracle k)
        have hstep1 := h2.append_left ((raceStep (inflight ++ [t]) (oracle k)).2)
        have hcomm : ((raceStep (inflight ++ [t]) (oracle k)).2 ++
            (raceStep (inflight ++ [t]) (oracle k)).1).Perm (inflight ++ [t]) :=
          List.perm_append_comm.trans hperm
        have hstep2 := hcomm.append_right ts
        rw [List.append_assoc, List.append_assoc, List.singleton_append] at hstep2
        exact hstep1.trans hstep2
      · show ∀ s ∈ ((inflight ++ [t]).length ::
            (raceStep (inflight ++ [t]) (oracle k)).1.length ::
            (runWCAux limit oracle ts (k + 1)
              (raceStep (inflight ++ [t]) (oracle k)).1).sizes), s ≤ limit
        intro s hs
        rcases List.mem_cons.mp hs with hs1 | hs
        · omega
        rcases List.mem_cons.mp hs with hs2 | hs
        · omega
        exact h3 s hs
    · have hlt : (inflight ++ [t]).length < limit := Nat.lt_of_not_le hc
      obtain ⟨h1, h2, h3⟩ := ih (k + 1) (inflight ++ [t]) hlt
      have hxrun : runWCAux limit oracle (t :: ts) k inflight =
          ⟨t :: (runWCAux limit oracle ts (k + 1) (inflight ++ [t])).started,
           (runWCAux limit oracle ts (k + 1) (inflight ++ [t])).settled,
           (inflight ++ [t]).length ::
             (runWCAux limit oracle ts (k + 1) (inflight ++ [t])).sizes⟩ := by
        simp only [runWCAux]
        rw [if_neg hc]
      rw [hxrun]
      refine ⟨?_, ?_, ?_⟩
      · show t :: (runWCAux limit oracle ts (k + 1) (inflight ++ [t])).started = t :: ts
        rw [h1]
      · show ((runWCAux limit oracle ts (k + 1) (inflight ++ [t])).settled).Perm
            (inflight ++ (t :: ts))
        have := h2
        rw [List.append_assoc, List.singleton_append] at this
        exact this
      · show ∀ s ∈ ((inflight ++ [t]).length ::
            (runWCAux limit oracle ts (k + 1) (inflight ++ [t])).sizes), s ≤ limit
        intro s hs
        rcases List.mem_cons.mp hs with hs1 | hs
        · omega
        exact h3 s hs

/-- C1: for every finite ordered task sequence, settling-schedule oracle and
concurrency limit `L ≥ 1`, `runWithConcurrency` starts every task exactly
once in submission order, the size of the in-flight set never exceeds `L` at
any observable instant, and the call completes only after every started task
has settled (the settled multiset equals the submitted tasks). -/
theorem runWithConcurrency_bounded (tasks : List τ) (limit : Nat)
    (oracle : Nat → List Bool) (hl : 1 ≤ limit) :
    (runWithConcurrency tasks limit oracle).started = tasks ∧
    (runWithConcurrency tasks limit oracle).settled.Perm tasks ∧
    ∀ s ∈ (runWithConcurrency tasks limit oracle).sizes, s ≤ limit := by
  have h := runWCAux_spec limit oracle tasks 0 [] (by simpa using hl)
  exact ⟨h.1, by simpa using h.2.1, h.2.2⟩

theorem runWithConcurrency_bounded_witness :
    1 ≤ 5 ∧
    ((runWithConcurrency (List.range 20) 5 (fun _ => [true])).started = List.range 20 ∧
     (runWithConcurrency (List.range 20) 5 (fun _ => [true])).settled.Perm (List.range 20) ∧
     ∀ s ∈ (runWithConcurrency (List.range 20) 5 (fun _ => [true])).sizes, s ≤ 5) :=
  ⟨by decide, runWithConcurrency_bounded (List.range 20) 5 (fun _ => [true]) (by decide)⟩

/-! ## End-to-end run theorems -/

theorem charsStarts_self_append (p rest : List Char) : charsStarts p (p ++ rest) = true := by
  induction p with
  | nil => rfl
  | cons c cs ih => simp [charsStarts, ih]

theorem jsEndsWith_ts (s : String) : jsEndsWith (s ++ ".ts") ".ts" = true := by
  unfold jsEndsWith
  rw [strData_append, List.reverse_append]
  exact charsStarts_self_append _ _

theorem segFileName_endsWith_ts (i : Nat) : jsEndsWith (segFileName i) ".ts" = true :=
  jsEndsWith_ts _

theorem filterMap_map_ok {γ : Type} (l : List Nat) (res : Nat → Except String (List Nat))
    (g : Nat → List Nat → γ) :
    (l.map (fun i => (i, res i))).filterMap (fun p =>
        match p.2 with
        | Except.ok bytes => some (g p.1 bytes)
        | Except.error _ => none)
      = (l.filter (fun i => (res i).isOk)).map (fun i => g i (bytesOf (res i))) := by
  induction l with
  | nil => rfl
  | cons i l ih =>
    rw [List.map_cons, List.filterMap_cons, List.filter_cons]
    cases hr : res i with
    | ok b => simp [hr, Except.isOk, Except.toBool, bytesOf, ih]
    | error e => simp [hr, Except.isOk, Except.toBool, ih]

theorem filterMap_map_err {γ : Type} (l : List Nat) (res : Nat → Except String (List Nat))
    (g : Nat → String → γ) :
    (l.map (fun i => (i, res i))).filterMap (fun p =>
        match p.2 with
        | Except.ok _ => none
        | Except.error e => some (g p.1 e))
      = (l.filter (fun i => !(res i).isOk)).map (fun i => g i (msgOf (res i))) := by
  induction l with
  | nil => rfl
  | cons i l ih =>
    rw [List.map_cons, List.filterMap_cons, List.filter_cons]
    cases hr : res i with
    | ok b => simp [hr, Except.isOk, Except.toBool, ih]
    | error e => simp [hr, Except.isOk, Except.toBool, msgOf, ih]

theorem sorted_segFileNames {l : List Nat} (hp : List.Pairwise (· < ·) l)
    (hb : ∀ i ∈ l, i < 100000) :
    List.Sorted strLe (l.map segFileName) := by
  apply List.pairwise_map.mpr
  apply List.Pairwise.imp_of_mem ?_ hp
  intro a b _ hbm hab
  exact strLt_le (segFileName_strLt hab (hb b hbm))

theorem assocLookup_map_self (g : Nat → List Nat) :
    ∀ (l : List Nat), List.Pairwise (fun a b => segFileName a ≠ segFileName b) l →
      ∀ i ∈ l, assocLookup (l.map (fun j => (segFileName j, g j))) (segFileName i) = g i := by
  intro l
  induction l with
  | nil => intro _ i hi; cases hi
  | cons j l ih =>
    intro hinj i hi
    rw [List.map_cons]
    rcases List.mem_cons.mp hi with hij | hmem
    · subst hij
      show (if segFileName i = segFileName i then g i else _) = g i
      rw [if_pos rfl]
    · show (if segFileName j = segFileName i then g j else _) = g i
      rw [if_neg ((List.pairwise_cons.mp hinj).1 i hmem)]
      exact ih (List.pairwise_cons.mp hinj).2 i hmem

/-- C7: every outer per-segment task catches the residual failure left after
the retry budget, logs the failing locator together with the failure message,
and completes normally; hence a run whose segments may permanently fail still
finishes without throwing, logs exactly one line per failed segment, and
produces the concatenation of the successfully fetched segments' bytes in
index order (no output file at all when every segment failed). -/
theorem segment_failure_isolated (urls : List String)
    (fetchSeg : Nat → Nat → Except String (List Nat)) (hn : urls.length ≤ 100000) :
    (downloadM3u8Run urls fetchSeg (Except.ok ())).thrown = none ∧
    (downloadM3u8Run urls fetchSeg (Except.ok ())).logs
      = ((List.range urls.length).filter
          (fun i => !(segResult fetchSeg i).isOk)).map
          (fun i => dlFailLog (urls.getD i "") (msgOf (segResult fetchSeg i))) ∧
    (downloadM3u8Run urls fetchSeg (Except.ok ())).output
      = (if ((List.range urls.length).filter (fun i => (segResult fetchSeg i).isOk)) = []
         then none
         else some ((((List.range urls.length).filter
             (fun i => (segResult fetchSeg i).isOk)).map
             (fun i => bytesOf (segResult fetchSeg i))).flatten)) := by
  refine ⟨rfl, ?_, ?_⟩
  · show (((List.range urls.length).map
        (fun i => (i, segResult fetchSeg i))).filterMap (fun p =>
          match p.2 with
          | Except.ok _ => none
          | Except.error e => some (dlFailLog (urls.getD p.1 "") e))) = _
    exact filterMap_map_err (List.range urls.length) (segResult fetchSeg)
      (fun i e => dlFailLog (urls.getD i "") e)
  · have hfiles : (((List.range urls.length).map
        (fun i => (i, segResult fetchSeg i))).filterMap (fun p =>
          match p.2 with
          | Except.ok bytes => some (segFileName p.1, bytes)
          | Except.error _ => none))
        = ((List.range urls.length).filter (fun i => (segResult fetchSeg i).isOk)).map
            (fun i => (segFileName i, bytesOf (segResult fetchSeg i))) :=
      filterMap_map_ok (List.range urls.length) (segResult fetchSeg)
        (fun i b => (segFileName i, b))
    show mergeTsFiles ((((List.range urls.length).map
        (fun i => (i, segResult fetchSeg i))).filterMap (fun p =>
          match p.2 with
          | Except.ok bytes => some (segFileName p.1, bytes)
          | Except.error _ => none)).map (fun f => f.1))
        (assocLookup (((List.range urls.length).map
          (fun i => (i, segResult fetchSeg i))).filterMap (fun p =>
            match p.2 with
            | Except.ok bytes => some (segFileName p.1, bytes)
            | Except.error _ => none))) = _
    rw [hfiles]
    have hpair : List.Pairwise (· < ·)
        ((List.range urls.length).filter (fun i => (segResult fetchSeg i).isOk)) :=
      (List.pairwise_lt_range urls.length).filter _
    have hbound : ∀ i ∈ (List.range urls.length).filter
        (fun i => (segResult fetchSeg i).isOk), i < 100000 := by
      intro i hi
      have := List.mem_range.mp (List.mem_of_mem_filter hi)
      omega
    have hnames : (((List.range urls.length).filter
        (fun i => (segResult fetchSeg i).isOk)).map
          (fun i => (segFileName i, bytesOf (segResult fetchSeg i)))).map (fun f => f.1)
        = ((List.range urls.length).filter
            (fun i => (segResult fetchSeg i).isOk)).map segFileName := by
      rw [List.map_map]
      rfl
    rw [hnames, mergeTsFiles_eq]
    have hkeep : (((List.range urls.length).filter
        (fun i => (segResult fetchSeg i).isOk)).map segFileName).filter
          (fun f => jsEndsWith f ".ts")
        = ((List.range urls.length).filter
            (fun i => (segResult fetchSeg i).isOk)).map segFileName := by
      apply List.filter_eq_self.mpr
      intro a ha
      rcases List.mem_map.mp ha with ⟨i, _, rfl⟩
      exact segFileName_endsWith_ts i
    rw [hkeep]
    have hsorted : List.insertionSort strLe
        (((List.range urls.length).filter
          (fun i => (segResult fetchSeg i).isOk)).map segFileName)
        = ((List.range urls.length).filter
            (fun i => (segResult fetchSeg i).isOk)).map segFileName :=
      List.Sorted.insertionSort_eq (sorted_segFileNames hpair hbound)
    rw [hsorted]
    have hinj : List.Pairwise (fun a b => segFileName a ≠ segFileName b)
        ((List.range urls.length).filter (fun i => (segResult fetchSeg i).isOk)) := by
      apply List.Pairwise.imp_of_mem ?_ hpair
      intro a b _ hbm hab
      exact strLt_ne (segFileName_strLt hab (hbound b hbm))
    have hread : (((List.range urls.length).filter
        (fun i => (segResult fetchSeg i).isOk)).map segFileName).map
          (assocLookup (((List.range urls.length).filter
            (fun i => (segResult fetchSeg i).isOk)).map
              (fun i => (segFileName i, bytesOf (segResult fetchSeg i)))))
        = ((List.range urls.length).filter
            (fun i => (segResult fetchSeg i).isOk)).map
              (fun i => bytesOf (segResult fetchSeg i)) := by
      rw [List.map_map]
      apply List.map_congr_left
      intro i hi
      exact assocLookup_map_self (fun i => bytesOf (segResult fetchSeg i)) _ hinj i hi
    rw [hread]
    by_cases hempty : ((List.range urls.length).filter
        (fun i => (segResult fetchSeg i).isOk)) = []
    · rw [if_pos hempty, if_pos (by rw [hempty]; rfl)]
    · rw [if_neg hempty, if_neg ?hlen]
      case hlen =>
        intro hl0
        rw [List.length_map] at hl0
        exact hempty (List.length_eq_zero.mp hl0)

theorem segment_failure_isolated_witness :
    (3 : Nat) ≤ 100000 ∧
    ((downloadM3u8Run ["u0", "u1", "u2"]
        (fun i _ => if i = 1 then Except.error "HTTP 500" else Except.ok [i])
        (Except.ok ())).thrown = none ∧
      (downloadM3u8Run ["u0", "u1", "u2"]
        (fun i _ => if i = 1 then Except.error "HTTP 500" else Except.ok [i])
        (Except.ok ())).logs
        = ((List.range 3).filter
            (fun i => !(segResult
              (fun i _ => if i = 1 then Except.error "HTTP 500" else Except.ok [i]) i).isOk)).map
            (fun i => dlFailLog ((["u0", "u1", "u2"] : List String).getD i "")
              (msgOf (segResult
                (fun i _ => if i = 1 then Except.error "HTTP 500" else Except.ok [i]) i))) ∧
      (downloadM3u8Run ["u0", "u1", "u2"]
        (fun i _ => if i = 1 then Except.error "HTTP 500" else Except.ok [i])
        (Except.ok ())).output
        = (if ((List.range 3).filter
              (fun i => (segResult
                (fun i _ => if i = 1 then Except.error "HTTP 500" else Except.ok [i]) i).isOk)) = []
           then none
           else some ((((List.range 3).filter
               (fun i => (segResult
                 (fun i _ => if i = 1 then Except.error "HTTP 500" else Except.ok [i]) i).isOk)).map
               (fun i => bytesOf (segResult
                 (fun i _ => if i = 1 then Except.error "HTTP 500" else Except.ok [i]) i))).flatten))) :=
  ⟨by decide, segment_failure_isolated ["u0", "u1", "u2"]
    (fun i _ => if i = 1 then Except.error "HTTP 500" else Except.ok [i]) (by decide)⟩

/-- C8 is false as stated: `fs.rmSync`'s `force: true` option suppresses only
the error of a non-existent path, and `downloadM3u8` does not wrap `cleanup`
in any `try`, so a removal failure with any other cause (here a permission
error) escalates to the caller instead of returning normally. -/
theorem cleanup_escalation_counterexample :
    (downloadM3u8Run ["u"] (fun _ _ => Except.ok [0])
        (Except.error (FsError.other "EACCES"))).thrown = some "EACCES" ∧
    (some "EACCES" : Option String) ≠ none :=
  ⟨rfl, by decide⟩

/-- C8 amended: after assembly completes on a normal completion path the run
removes the workspace directory recursively and forcibly, where `force`
means exactly that a removal failing because the directory does not exist is
not escalated and `downloadM3u8` still returns normally; any other removal
failure propagates to the caller with its message.  The output artifact and
the per-segment failure logs are already complete before cleanup runs and do
not depend on the removal outcome. -/
theorem cleanup_best_effort (urls : List String)
    (fetchSeg : Nat → Nat → Except String (List Nat)) :
    ((downloadM3u8Run urls fetchSeg (Except.ok ())).removed = true ∧
     (downloadM3u8Run urls fetchSeg (Except.ok ())).thrown = none) ∧
    (downloadM3u8Run urls fetchSeg (Except.error FsError.notFound)).thrown = none ∧
    (∀ m, (downloadM3u8Run urls fetchSeg (Except.error (FsError.other m))).thrown = some m) ∧
    (∀ rm, (downloadM3u8Run urls fetchSeg rm).output
        = (downloadM3u8Run urls fetchSeg (Except.ok ())).output ∧
      (downloadM3u8Run urls fetchSeg rm).logs
        = (downloadM3u8Run urls fetchSeg (Except.ok ())).logs) :=
  ⟨⟨rfl, rfl⟩, rfl, fun _ => rfl, fun _ => ⟨rfl, rfl⟩⟩

/-- C9: for every manifest classified as multi-variant, variant selection
fails with the no-variants error if and only if the list of parsed
stream-variant entries is empty; when the list is non-empty no such error is
raised and exactly the selected variant's locator is returned. -/
theorem chooseM3u8_no_variants_iff (masterUrl text : String) (sel : Nat)
    (_hm : isMasterPlaylist text = true) :
    (chooseM3u8 masterUrl text sel
        = Except.error "No media streams found in master playlist"
      ↔ extractVariants (baseUrlOf masterUrl) ((jsSplitChar '\n' text).map jsTrim) = []) ∧
    (extractVariants (baseUrlOf masterUrl) ((jsSplitChar '\n' text).map jsTrim) ≠ [] →
      sel < (extractVariants (baseUrlOf masterUrl)
          ((jsSplitChar '\n' text).map jsTrim)).length →
        ∃ u, (extractVariants (baseUrlOf masterUrl)
            ((jsSplitChar '\n' text).map jsTrim))[sel]? = some u ∧
          chooseM3u8 masterUrl text sel = Except.ok u) := by
  constructor
  · by_cases hE : extractVariants (baseUrlOf masterUrl)
        ((jsSplitChar '\n' text).map jsTrim) = []
    · refine ⟨fun _ => hE, fun _ => ?_⟩
      show (if (extractVariants (baseUrlOf masterUrl)
          ((jsSplitChar '\n' text).map jsTrim)).isEmpty then _ else _) = _
      rw [if_pos (List.isEmpty_iff.mpr hE)]
    · have hEf : (extractVariants (baseUrlOf masterUrl)
          ((jsSplitChar '\n' text).map jsTrim)).isEmpty = false := by
        cases hb : (extractVariants (baseUrlOf masterUrl)
            ((jsSplitChar '\n' text).map jsTrim)).isEmpty with
        | false => rfl
        | true => exact absurd (List.isEmpty_iff.mp hb) hE
      constructor
      · intro hchoose
        exfalso
        have hshape : (if (extractVariants (baseUrlOf masterUrl)
            ((jsSplitChar '\n' text).map jsTrim)).isEmpty
            then Except.error "No media streams found in master playlist"
            else match (extractVariants (baseUrlOf masterUrl)
                ((jsSplitChar '\n' text).map jsTrim))[sel]? with
              | some u => (Except.ok u : Except String String)
              | none => Except.error "invalid selection index")
            = Except.error "No media streams found in master playlist" := hchoose
        rw [if_neg (by rw [hEf]; exact Bool.false_ne_true)] at hshape
        cases hu : (extractVariants (baseUrlOf masterUrl)
            ((jsSplitChar '\n' text).map jsTrim))[sel]? with
        | some u => rw [hu] at hshape; cases hshape
        | none =>
          rw [hu] at hshape
          have : "invalid selection index" = "No media streams found in master playlist" :=
            Except.error.inj hshape
          exact absurd this (by decide)
      · intro hcontra
        exact absurd hcontra hE
  · intro hne hlt
    have hEf : (extractVariants (baseUrlOf masterUrl)
        ((jsSplitChar '\n' text).map jsTrim)).isEmpty = false := by
      cases hb : (extractVariants (baseUrlOf masterUrl)
          ((jsSplitChar '\n' text).map jsTrim)).isEmpty with
      | false => rfl
      | true => exact absurd (List.isEmpty_iff.mp hb) hne
    cases hu : (extractVariants (baseUrlOf masterUrl)
        ((jsSplitChar '\n' text).map jsTrim))[sel]? with
    | none =>
      exfalso
      rw [List.getElem?_eq_none_iff] at hu
      omega
    | some u =>
      refine ⟨u, rfl, ?_⟩
      show (if (extractVariants (baseUrlOf masterUrl)
          ((jsSplitChar '\n' text).map jsTrim)).isEmpty
          then Except.error "No media streams found in master playlist"
          else match (extractVariants (baseUrlOf masterUrl)
              ((jsSplitChar '\n' text).map jsTrim))[sel]? with
            | some u => (Except.ok u : Except String String)
            | none => Except.error "invalid selection index")
          = Except.ok u
      rw [if_neg (by rw [hEf]; exact Bool.false_ne_true), hu]

theorem chooseM3u8_no_variants_iff_witness :
    isMasterPlaylist "#EXTM3U\n#EXT-X-STREAM-INF:BANDWIDTH=1\nv.m3u8" = true ∧
    ((chooseM3u8 "http://h/a/master.m3u8" "#EXTM3U\n#EXT-X-STREAM-INF:BANDWIDTH=1\nv.m3u8" 0
        = Except.error "No media streams found in master playlist"
      ↔ extractVariants (baseUrlOf "http://h/a/master.m3u8")
          ((jsSplitChar '\n' "#EXTM3U\n#EXT-X-STREAM-INF:BANDWIDTH=1\nv.m3u8").map jsTrim)
          = []) ∧
     (extractVariants (baseUrlOf "http://h/a/master.m3u8")
        ((jsSplitChar '\n' "#EXTM3U\n#EXT-X-STREAM-INF:BANDWIDTH=1\nv.m3u8").map jsTrim) ≠ [] →
      0 < (extractVariants (baseUrlOf "http://h/a/master.m3u8")
          ((jsSplitChar '\n' "#EXTM3U\n#EXT-X-STREAM-INF:BANDWIDTH=1\nv.m3u8").map jsTrim)).length →
        ∃ u, (extractVariants (baseUrlOf "http://h/a/master.m3u8")
            ((jsSplitChar '\n' "#EXTM3U\n#EXT-X-STREAM-INF:BANDWIDTH=1\nv.m3u8").map jsTrim))[0]?
            = some u ∧
          chooseM3u8 "http://h/a/master.m3u8"
            "#EXTM3U\n#EXT-X-STREAM-INF:BANDWIDTH=1\nv.m3u8" 0 = Except.ok u)) :=
  ⟨by decide, chooseM3u8_no_variants_iff "http://h/a/master.m3u8"
    "#EXTM3U\n#EXT-X-STREAM-INF:BANDWIDTH=1\nv.m3u8" 0 (by decide)⟩

end M3u8
